import Mathlib

/-!
Verification of the vide serialization engine (cpplibv/vide).

Shallow embedding of the archive engine and the binary codecs:
* the binary archive writes raw little-endian fixed-width scalars to a byte
  stream (`BinaryOutputArchive::saveBinary` appends bytes,
  `BinaryInputArchive::loadBinary` consumes them, throwing on short reads);
* the output/input archive pointer registries (`registerSharedPointer`,
  `getSharedPointer`), the deferment queue, the virtual-base dedup set,
  the portable-binary read-size guard (`validate_read_size`,
  `maximumBinaryReadSize`) and the reserve budget (`safe_to_reserve`);
* the JSON (tree) input cursor with by-name search
  (`JSONInputArchive::Iterator::search`, `JSONInputArchive::search`).

Bytes are naturals below 256; machine integers are naturals reduced mod 2^32
where the source uses `uint32_t`.  Fallible operations return
`Except String`, mirroring `throw vide::Exception(msg)`.
-/

namespace Vide

/-- Bit 31 mask, `vide::detail::msb_32bit = 0x80000000`. -/
def msb32 : Nat := 2147483648

/-- Modulus of the `uint32_t` arithmetic used for ids and sizes. -/
def u32Mod : Nat := 4294967296

/-! ### Binary scalar codec

`BinaryOutputArchive::process_as(arithmetic)` calls
`saveBinary(&t, sizeof(t))`, writing the raw object representation; on a
little-endian machine a `uint32_t` becomes four bytes, least significant
first.  `BinaryInputArchive::process_as(arithmetic)` calls
`loadBinary(&t, sizeof(t))`, which throws when fewer bytes are available
than requested and otherwise copies the bytes into the object. -/

/-- Raw one-byte representation written by `saveBinary` for a 1-byte value. -/
def encU8 (n : Nat) : List Nat := [n % 256]

/-- Raw four-byte little-endian representation written by `saveBinary` for a
`uint32_t` (or `int`) value. -/
def encU32 (n : Nat) : List Nat :=
  [n % 256, n / 256 % 256, n / 65536 % 256, n / 16777216 % 256]

/-- Object representation of a C++ `bool`: one byte, 1 for `true`, 0 for
`false`. -/
def encBool (b : Bool) : List Nat := encU8 (if b then 1 else 0)

/-- Value of a little-endian four-byte group. -/
def decU32 (b0 b1 b2 b3 : Nat) : Nat :=
  b0 + 256 * b1 + 65536 * b2 + 16777216 * b3

/-- Model of `loadBinary(&t, 1)`: take one byte off the stream, error on a
short read exactly as the stream read throws. -/
def loadByte : List Nat → Except String (Nat × List Nat)
  | [] => .error "Failed to read 1 bytes from input stream! Read 0"
  | b :: rest => .ok (b, rest)

/-- Model of `loadBinary(&t, 4)` for a `uint32_t`: take four bytes off the
stream and reassemble the little-endian value, error on a short read. -/
def loadU32 : List Nat → Except String (Nat × List Nat)
  | b0 :: b1 :: b2 :: b3 :: rest => .ok (decU32 b0 b1 b2 b3, rest)
  | _ => .error "Failed to read 4 bytes from input stream!"

/-- Model of `BinaryInputArchive::process_as(arithmetic)` at type `bool`:
the raw byte is copied into the bool object with no validation of any kind
(the returned `Nat` is the object representation the load produced). -/
def loadBool (s : List Nat) : Except String (Nat × List Nat) := loadByte s

/-- Machine value of a bool object representation.  Only 0 and 1 are valid
representations; 0 reads as `false` and 1 reads as `true`. -/
def boolOfRep (n : Nat) : Bool := n != 0

/-! ### Vector codec (types/vector.hpp)

Saving writes `make_size_tag(static_cast<size_type>(size))` — a `uint32_t`
for binary archives — followed by the elements; for arithmetic element
types the elements go out as one `binary_data` blob, i.e. the concatenated
raw representations.  Loading reads the size tag, resizes, and reads the
blob back, which is byte-for-byte the same as reading the elements one by
one. -/

/-- Encoding of `std::vector<uint32_t>` by the binary archive. -/
def encVecU32 (v : List Nat) : List Nat :=
  encU32 v.length ++ v.flatMap encU32

/-- Reads `n` consecutive `uint32_t` values (the `binary_data` blob of a
vector of `n` elements). -/
def loadU32s : Nat → List Nat → Except String (List Nat × List Nat)
  | 0, s => .ok ([], s)
  | n + 1, s => do
    let (x, s1) ← loadU32 s
    let (xs, s2) ← loadU32s n s1
    .ok (x :: xs, s2)

/-- Decoding of `std::vector<uint32_t>` by the binary archive: size tag then
elements. -/
def loadVecU32 (s : List Nat) : Except String (List Nat × List Nat) := do
  let (n, s1) ← loadU32 s
  loadU32s n s1

/-! ### Output archive shared-pointer registry (vide.hpp)

`OutputArchive` owns `itsSharedPointerMap : addr -> id`,
`itsSharedPointerStorage` (copies of every registered non-null shared
pointer, kept alive for the session to prevent CVE-2020-11105) and
`itsCurrentPointerId`, starting at 1.  Addresses are modelled as naturals
with 0 standing for `nullptr`; the storage keeps the registered addresses
(each entry standing for a copy of the shared pointer itself). -/

structure OutPtrState where
  sharedPointerMap : List (Nat × Nat)
  sharedPointerStorage : List Nat
  currentPointerId : Nat
  deriving Repr, DecidableEq

/-- Session-start state of the output pointer registry. -/
def OutPtrState.init : OutPtrState := ⟨[], [], 1⟩

/-- Key lookup in an association list, modelling `unordered_map::find`. -/
def lookupId : List (Nat × Nat) → Nat → Option Nat
  | [], _ => none
  | p :: m, k => if p.1 = k then some p.2 else lookupId m k

/-- Model of `OutputArchive::registerSharedPointer`: null returns 0 at once;
otherwise a copy of the pointer is stored, then the address is looked up:
first sight allocates `itsCurrentPointerId`, increments it (`uint32_t`
arithmetic) and returns the id with bit 31 set via `| msb_32bit`; a repeat
returns the cached id unchanged. -/
def OutPtrState.registerSharedPointer (s : OutPtrState) (addr : Nat) :
    Nat × OutPtrState :=
  if addr = 0 then (0, s)
  else
    let s1 : OutPtrState :=
      { s with sharedPointerStorage := s.sharedPointerStorage ++ [addr] }
    match lookupId s1.sharedPointerMap addr with
    | none =>
      let ptrId := s1.currentPointerId
      (ptrId ||| msb32,
        { s1 with
          sharedPointerMap := s1.sharedPointerMap ++ [(addr, ptrId)]
          currentPointerId := (ptrId + 1) % u32Mod })
    | some i => (i, s1)

/-- Model of `OutputArchive::reset`: every registry is cleared and the next
pointer id returns to 1. -/
def OutPtrState.reset (_ : OutPtrState) : OutPtrState := OutPtrState.init

/-- Runs a sequence of shared-pointer registrations. -/
def runRegisters (addrs : List Nat) (s : OutPtrState) : OutPtrState :=
  addrs.foldl (fun st a => (st.registerSharedPointer a).2) s

/-- Invariant of an output session: ids handed out so far are exactly
1, 2, …, n in registration order (so `itsCurrentPointerId` is n + 1), and
each address occurs at most once as a key. -/
def OutInv (s : OutPtrState) : Prop :=
  s.currentPointerId = s.sharedPointerMap.length + 1 ∧
  s.sharedPointerMap.map Prod.snd = List.range' 1 s.sharedPointerMap.length ∧
  (s.sharedPointerMap.map Prod.fst).Nodup

/-! ### Input archive shared-pointer registry (vide.hpp) -/

/-- Input-side registry `itsSharedPointerMap : id -> instance`; the
instance a map entry points at is modelled by the value loaded into it. -/
structure InPtrState where
  sharedPointerMap : List (Nat × Nat)
  deriving Repr, DecidableEq

/-- Session-start state of the input pointer registry. -/
def InPtrState.init : InPtrState := ⟨[]⟩

/-- Clearing of bit 31, `id & ~detail::msb_32bit` on a `uint32_t`. -/
def stripMsb (id : Nat) : Nat := id &&& 2147483647

/-- Model of `unordered_map::operator[] =`: replace the value under the key
if present, append otherwise. -/
def storeId : List (Nat × Nat) → Nat → Nat → List (Nat × Nat)
  | [], k, v => [(k, v)]
  | p :: m, k, v =>
    if p.1 = k then (k, v) :: m else p :: storeId m k v

/-- Model of `InputArchive::registerSharedPointer(id, ptr)`: the id is
stored with bit 31 cleared. -/
def InPtrState.registerSharedPointer (s : InPtrState) (id v : Nat) :
    InPtrState :=
  ⟨storeId s.sharedPointerMap (stripMsb id) v⟩

/-- Model of `InputArchive::getSharedPointer`: id 0 is the null pointer; a
registered id returns its instance; an unknown id throws. -/
def InPtrState.getSharedPointer (s : InPtrState) (id : Nat) :
    Except String (Option Nat) :=
  if id = 0 then .ok none
  else
    match lookupId s.sharedPointerMap id with
    | none =>
      .error ("Error while trying to deserialize a smart pointer. Could not find id "
        ++ toString id)
    | some v => .ok (some v)

/-! ### Shared-pointer wire protocol (types/memory.hpp)

Saving writes `id = registerSharedPointer(ptr)` and, when `id & msb_32bit`
is set, follows with the pointee payload.  Loading reads the id; a set bit
31 means construct a new instance, register it and load the payload into
it (modelled by registering the loaded value); otherwise the instance
comes from `getSharedPointer`. -/

/-- Save a `shared_ptr<uint32_t>` at address `addr` holding `val`. -/
def saveSharedPtrU32 (s : OutPtrState) (addr val : Nat) :
    List Nat × OutPtrState :=
  let r := s.registerSharedPointer addr
  if Nat.testBit r.1 31 then (encU32 r.1 ++ encU32 val, r.2)
  else (encU32 r.1, r.2)

/-- Load a `shared_ptr<uint32_t>`; returns the dereferenced value (`none`
for null), the updated registry, and the unread rest of the stream. -/
def loadSharedPtrU32 (s : InPtrState) (bytes : List Nat) :
    Except String (Option Nat × InPtrState × List Nat) :=
  match loadU32 bytes with
  | .error e => .error e
  | .ok (id, b1) =>
    if Nat.testBit id 31 then
      match loadU32 b1 with
      | .error e => .error e
      | .ok (v, b2) => .ok (some v, s.registerSharedPointer id v, b2)
    else
      match s.getSharedPointer id with
      | .error e => .error e
      | .ok p => .ok (p, s, b1)

/-! ### Concrete binary scenario (spec section 8)

Encode `true`, `1234` and the vector `[1, 2, 3]` in that order to a binary
archive, then decode the same shapes. -/

/-- Bytes produced by the binary archive for `true`, `1234`, `[1,2,3]`. -/
def encScenario : List Nat :=
  encBool true ++ encU32 1234 ++ encVecU32 [1, 2, 3]

/-- Decoding of a bool, an int and a vector in order; yields the machine
values and the bytes left unread. -/
def decScenario (s : List Nat) :
    Except String ((Bool × Nat × List Nat) × List Nat) := do
  let (b, s1) ← loadBool s
  let (n, s2) ← loadU32 s1
  let (v, s3) ← loadVecU32 s2
  .ok ((boolOfRep b, n, v), s3)

/-! ### Deferred-action queue (vide.hpp)

`defer(value)` wraps the value in `DeferredData`;
`processImpl(as, DeferredData)` appends a zero-argument closure capturing
it to `itsDeferments`; `serializeDeferments()` runs the closures in order
with a plain range-for and does not touch the vector afterwards. -/

/-- Archive state relevant to the deferment queue: `itsDeferments` (the
captured values in enqueue order) and the bytes written so far. -/
structure DeferState where
  deferments : List Nat
  out : List Nat
  deriving Repr, DecidableEq

/-- Archive state at session start: empty queue, nothing written. -/
def DeferState.init : DeferState := ⟨[], []⟩

/-- Model of `processImpl(as, DeferredData)`: a closure capturing the value
is enqueued; nothing is written now. -/
def DeferState.defer (s : DeferState) (v : Nat) : DeferState :=
  { s with deferments := s.deferments ++ [v] }

/-- Model of `OutputArchive::serializeDeferments`: every queued closure is
executed in enqueue order, each serializing its captured value (here a
`uint32_t`); the queue itself is left as it was. -/
def DeferState.serializeDeferments (s : DeferState) : DeferState :=
  { s with out := s.out ++ s.deferments.flatMap encU32 }

/-- Runs a sequence of deferments. -/
def runDefers (vs : List Nat) (s : DeferState) : DeferState :=
  vs.foldl DeferState.defer s

/-! ### Base-class dedup (vide.hpp)

`processImpl(as, base_class<T>)` recurses into the base sub-object
unconditionally; `processImpl(as, virtual_base_class<T>)` first builds a
`detail::base_class_id` from the base type and address and recurses only
when inserting it into `itsBaseClassSet` succeeds. -/

/-- Dedup key `detail::base_class_id`: the base type (a `std::type_index`,
modelled by a numeric type id) and the base sub-object address; equality
compares both fields. -/
structure BaseClassId where
  type : Nat
  ptr : Nat
  deriving Repr, DecidableEq

/-- Engine state for base-class traversal: `itsBaseClassSet` plus the trace
of base sub-objects actually recursed into (in order). -/
structure BaseClassState where
  baseClassSet : List BaseClassId
  trace : List BaseClassId
  deriving Repr, DecidableEq

/-- Session-start base-class state: empty set, nothing recursed into. -/
def BaseClassState.init : BaseClassState := ⟨[], []⟩

/-- Model of `processImpl(as, base_class<T>)`: always recurse. -/
def BaseClassState.processBaseClass (s : BaseClassState) (id : BaseClassId) :
    BaseClassState :=
  { s with trace := s.trace ++ [id] }

/-- Model of `processImpl(as, virtual_base_class<T>)`: recurse only when
`itsBaseClassSet.emplace(id).second` reports an actual insertion. -/
def BaseClassState.processVirtualBaseClass (s : BaseClassState)
    (id : BaseClassId) : BaseClassState :=
  if id ∈ s.baseClassSet then s
  else { baseClassSet := s.baseClassSet ++ [id], trace := s.trace ++ [id] }

/-- Runs a sequence of virtual-base-class serializations. -/
def runVirtualBases (ids : List BaseClassId) (s : BaseClassState) :
    BaseClassState :=
  ids.foldl BaseClassState.processVirtualBaseClass s

/-- Dedup invariant: a key already in `itsBaseClassSet` was recursed into
at most once, a key not in the set never was. -/
def BaseInv (s : BaseClassState) : Prop :=
  ∀ id : BaseClassId,
    (id ∈ s.baseClassSet → s.trace.count id ≤ 1) ∧
    (id ∉ s.baseClassSet → s.trace.count id = 0)

/-! ### Portable-binary input archive (archives/portable_binary.hpp)

The constructor records the stream end by seeking to the end and back, so
the archive knows at any time how many bytes remain.  The model fixes the
producer and consumer endianness to agree (no byte swapping), which the
read-size guard never depends on. -/

/-- Portable-binary input archive state: the stream contents (the length
recorded at construction) and the current read position. -/
structure PBIn where
  data : List Nat
  pos : Nat
  deriving Repr, DecidableEq

/-- Model of `PortableBinaryInputArchive::maximumBinaryReadSize`: bytes
between the current position and the end recorded at construction. -/
def PBIn.maximumBinaryReadSize (s : PBIn) : Nat := s.data.length - s.pos

/-- Model of `InputArchive::validate_read_size<T>`: a request of
`count * sizeof(T)` bytes above the remaining stream length throws, before
anything is allocated or read. -/
def PBIn.validate_read_size (s : PBIn) (elemSize numElements : Nat) :
    Except String Unit :=
  let requestedBytes := numElements * elemSize
  if requestedBytes > s.maximumBinaryReadSize then
    .error ("Read size validation of " ++ toString requestedBytes
      ++ " bytes failed.")
  else .ok ()

/-- Model of `PortableBinaryInputArchive::loadBinary`: read `size` bytes,
throwing on a short read. -/
def PBIn.loadBinary (s : PBIn) (size : Nat) : Except String (List Nat × PBIn) :=
  if s.pos + size ≤ s.data.length then
    .ok ((s.data.drop s.pos).take size, { s with pos := s.pos + size })
  else
    .error ("Failed to read " ++ toString size
      ++ " bytes from input stream. Read " ++ toString (s.data.length - s.pos))

/-- Loads a `uint32_t` (for example a size tag) from the portable-binary
stream. -/
def PBIn.loadU32 (s : PBIn) : Except String (Nat × PBIn) :=
  match s.loadBinary 4 with
  | .error e => .error e
  | .ok (bs, s1) =>
    .ok (decU32 (bs.getD 0 0) (bs.getD 1 0) (bs.getD 2 0) (bs.getD 3 0), s1)

/-- Model of the `basic_string` load (types/string.hpp) on a portable
binary archive with one-byte characters: read the size tag, run the
read-size guard, then resize and read the characters as one blob. -/
def PBIn.loadString (s : PBIn) : Except String (List Nat × PBIn) := do
  let (size, s1) ← s.loadU32
  match s1.validate_read_size 1 size with
  | .error e => .error e
  | .ok _ => s1.loadBinary size

/-! ### Reserve-memory budget (vide.hpp)

`reserveMemoryBudget` bounds how much memory container loads may reserve
up front; `safe_to_reserve<T>(n)` grants at most what the budget covers
and deducts the granted bytes. -/

/-- Model of `InputArchive::safe_to_reserve<T>`: grant the full request when
`n * sizeof(T)` fits the budget, otherwise `budget / sizeof(T)` elements;
deduct the granted bytes.  Returns the granted element count and the new
budget. -/
def safe_to_reserve (elemSize budget numElements : Nat) : Nat × Nat :=
  let requestedBytes := numElements * elemSize
  let numSafeElements :=
    if requestedBytes ≤ budget then numElements else budget / elemSize
  (numSafeElements, budget - numSafeElements * elemSize)

/-- Runs a sequence of reserve requests against the budget. -/
def runReserves (elemSize : Nat) (reqs : List Nat) (budget : Nat) : Nat :=
  reqs.foldl (fun b n => (safe_to_reserve elemSize b n).2) budget

/-! ### Tree (JSON) input cursor (cereal/archives/json.hpp)

The input archive keeps a stack of iterators; the model captures one
object level: its named members in document order and the iterator index,
plus `itsNextName` set by an NVP. -/

/-- Cursor over the members of one JSON object node (`Iterator` in member
mode: `itsMemberItBegin` with `itsIndex`). -/
structure JsonCursor (V : Type) where
  members : List (String × V)
  index : Nat

/-- Name at the cursor position, `Iterator::name`: null past the end. -/
def JsonCursor.name {V : Type} (c : JsonCursor V) : Option String :=
  match c.members.get? c.index with
  | some p => some p.1
  | none => none

/-- Scan loop of `Iterator::search`: walk the members from the beginning,
counting, for the first exact name match. -/
def searchFrom {V : Type} (nm : String) :
    List (String × V) → Nat → Option Nat
  | [], _ => none
  | p :: rest, i => if p.1 = nm then some i else searchFrom nm rest (i + 1)

/-- Model of `Iterator::search`: reposition at the first member whose name
matches exactly, throwing when none does. -/
def JsonCursor.search {V : Type} (c : JsonCursor V) (nm : String) :
    Except String (JsonCursor V) :=
  match searchFrom nm c.members 0 with
  | some i => .ok { c with index := i }
  | none =>
    .error ("JSON Parsing failed - provided NVP (" ++ nm ++ ") not found")

/-- Input state at one object level: the cursor plus `itsNextName`. -/
structure JsonInState (V : Type) where
  cursor : JsonCursor V
  nextName : Option String

/-- Model of `JSONInputArchive::setNextName`. -/
def JsonInState.setNextName {V : Type} (s : JsonInState V) (nm : String) :
    JsonInState V :=
  { s with nextName := some nm }

/-- Model of `JSONInputArchive::search`: with no pending name, or with a
pending name that already matches the cursor position, do nothing except
clear the pending name; otherwise reposition via `Iterator::search`. -/
def JsonInState.search {V : Type} (s : JsonInState V) :
    Except String (JsonInState V) :=
  match s.nextName with
  | none => .ok { s with nextName := none }
  | some expected =>
    match s.cursor.name with
    | some actual =>
      if actual = expected then .ok { s with nextName := none }
      else do
        let c ← s.cursor.search expected
        .ok { cursor := c, nextName := none }
    | none => do
      let c ← s.cursor.search expected
      .ok { cursor := c, nextName := none }

/-- Model of `JSONInputArchive::loadValue`: `search()` first, then the
value at the cursor (`Iterator::value` throws past the end), then
advance. -/
def JsonInState.loadValue {V : Type} (s : JsonInState V) :
    Except String (V × JsonInState V) := do
  let s1 ← s.search
  match s1.cursor.members.get? s1.cursor.index with
  | none => .error "No more objects in input"
  | some p =>
    .ok (p.2,
      { s1 with cursor := { s1.cursor with index := s1.cursor.index + 1 } })

/-- Loads the value of a named field: the NVP sets the name, then the value
is loaded. -/
def JsonInState.loadNamed {V : Type} (s : JsonInState V) (nm : String) :
    Except String (V × JsonInState V) :=
  (s.setNextName nm).loadValue

/-- Loads a sequence of named fields left to right. -/
def loadNames {V : Type} (s : JsonInState V) :
    List String → Except String (List V × JsonInState V)
  | [] => .ok ([], s)
  | nm :: nms => do
    let (v, s1) ← s.loadNamed nm
    let (vs, s2) ← loadNames s1 nms
    .ok (v :: vs, s2)

end Vide

namespace Vide

/-! ### Basic codec lemmas -/

theorem loadU32_encU32 (n : Nat) (hn : n < u32Mod) (rest : List Nat) :
    loadU32 (encU32 n ++ rest) = .ok (n, rest) := by
  simp only [encU32, List.cons_append, List.nil_append, loadU32, decU32]
  have : n % 256 + 256 * (n / 256 % 256) + 65536 * (n / 65536 % 256)
      + 16777216 * (n / 16777216 % 256) = n := by
    unfold u32Mod at hn
    omega
  rw [this]

theorem loadU32s_encs (v : List Nat) (hv : ∀ x ∈ v, x < u32Mod)
    (rest : List Nat) :
    loadU32s v.length (v.flatMap encU32 ++ rest) = .ok (v, rest) := by
  induction v with
  | nil => simp [loadU32s]
  | cons x xs ih =>
    have hx : x < u32Mod := hv x (by simp)
    have hxs : ∀ y ∈ xs, y < u32Mod := fun y hy => hv y (by simp [hy])
    simp only [List.length_cons, List.flatMap_cons, List.append_assoc, loadU32s]
    rw [loadU32_encU32 x hx]
    simp only [bind, Except.bind]
    rw [ih hxs]

theorem loadVecU32_encVecU32 (v : List Nat) (hv : ∀ x ∈ v, x < u32Mod)
    (hlen : v.length < u32Mod) (rest : List Nat) :
    loadVecU32 (encVecU32 v ++ rest) = .ok (v, rest) := by
  simp only [loadVecU32, encVecU32, List.append_assoc]
  rw [loadU32_encU32 v.length hlen]
  simp only [bind, Except.bind]
  exact loadU32s_encs v hv rest

/-! ### Association-list lemmas -/

theorem lookupId_append_self (m : List (Nat × Nat)) (a v : Nat)
    (h : lookupId m a = none) : lookupId (m ++ [(a, v)]) a = some v := by
  induction m with
  | nil => simp [lookupId]
  | cons p m ih =>
    simp only [lookupId] at h ⊢
    by_cases hp : p.1 = a
    · simp [hp] at h
    · simpa [hp] using ih (by simpa [hp] using h)

theorem lookupId_append_ne (m : List (Nat × Nat)) (a v b : Nat)
    (h : b ≠ a) : lookupId (m ++ [(a, v)]) b = lookupId m b := by
  induction m with
  | nil =>
    simp only [List.nil_append, lookupId, ite_eq_right_iff]
    intro he
    exact absurd he.symm h
  | cons p m ih =>
    simp only [lookupId, List.cons_append]
    by_cases hp : p.1 = b
    · simp [hp]
    · simpa [hp] using ih

theorem not_mem_keys_of_lookupId_none (m : List (Nat × Nat)) (a : Nat)
    (h : lookupId m a = none) : a ∉ m.map Prod.fst := by
  induction m with
  | nil => simp
  | cons p m ih =>
    simp only [lookupId] at h
    by_cases hp : p.1 = a
    · simp [hp] at h
    · simp only [List.map_cons, List.mem_cons, not_or]
      exact ⟨fun he => hp he.symm, ih (by simpa [hp] using h)⟩

theorem lookupId_mem (m : List (Nat × Nat)) (a i : Nat)
    (h : lookupId m a = some i) : (a, i) ∈ m := by
  induction m with
  | nil => simp [lookupId] at h
  | cons p m ih =>
    simp only [lookupId] at h
    split at h
    · rename_i heq
      have hpi : p = (a, i) := Prod.ext heq (Option.some.inj h)
      rw [← hpi]
      exact List.mem_cons_self p m
    · exact List.mem_cons_of_mem p (ih h)

/-! ### Claim C1 — binary round trip -/

/-- Claim C1: decoding the binary encoding of a supported value yields an
equal value — for bools, for 32-bit scalars, for vectors of 32-bit
scalars, and for shared pointers in a fresh session (null and non-null,
with value equality for the pointee); the concrete scenario `true`, `1234`,
`[1,2,3]` decodes to exactly those values with no extra bytes consumed. -/
theorem binary_roundtrip :
    (∀ (b : Bool) (rest : List Nat),
      loadBool (encBool b ++ rest) = .ok ((if b then 1 else 0 : Nat), rest) ∧
      boolOfRep (if b then 1 else 0) = b) ∧
    (∀ (n : Nat) (rest : List Nat), n < u32Mod →
      loadU32 (encU32 n ++ rest) = .ok (n, rest)) ∧
    (∀ (v : List Nat) (rest : List Nat), (∀ x ∈ v, x < u32Mod) →
      v.length < u32Mod → loadVecU32 (encVecU32 v ++ rest) = .ok (v, rest)) ∧
    (∀ (val : Nat) (rest : List Nat),
      loadSharedPtrU32 InPtrState.init
          ((saveSharedPtrU32 OutPtrState.init 0 val).1 ++ rest)
        = .ok (none, InPtrState.init, rest)) ∧
    (∀ (addr val : Nat) (rest : List Nat), addr ≠ 0 → val < u32Mod →
      loadSharedPtrU32 InPtrState.init
          ((saveSharedPtrU32 OutPtrState.init addr val).1 ++ rest)
        = .ok (some val, InPtrState.mk [(1, val)], rest)) ∧
    decScenario encScenario = .ok ((true, 1234, [1, 2, 3]), []) := by
  refine ⟨?_, ?_, ?_, ?_, ?_, ?_⟩
  · intro b rest
    cases b <;> simp [encBool, encU8, loadBool, loadByte, boolOfRep]
  · intro n rest hn
    exact loadU32_encU32 n hn rest
  · intro v rest hv hlen
    exact loadVecU32_encVecU32 v hv hlen rest
  · intro val rest
    have hsave : (saveSharedPtrU32 OutPtrState.init 0 val).1 = encU32 0 := by
      simp [saveSharedPtrU32, OutPtrState.registerSharedPointer]
    rw [hsave]
    unfold loadSharedPtrU32
    rw [loadU32_encU32 0 (by decide) rest]
    dsimp only
    rw [show Nat.testBit 0 31 = false from by decide,
      if_neg (by decide : ¬(false = true))]
    simp [InPtrState.getSharedPointer]
  · intro addr val rest haddr hval
    have hmod2 : (1 + 1) % u32Mod = 2 := by decide
    have hbit : Nat.testBit (1 ||| msb32) 31 = true := by decide
    have hlt : (1 ||| msb32) < u32Mod := by decide
    have hstrip : stripMsb (1 ||| msb32) = 1 := by decide
    have hreg : OutPtrState.init.registerSharedPointer addr =
        (1 ||| msb32, ⟨[(addr, 1)], [addr], 2⟩) := by
      simp [OutPtrState.registerSharedPointer, OutPtrState.init, haddr,
        lookupId, hmod2]
    have hsave : (saveSharedPtrU32 OutPtrState.init addr val).1
        = encU32 (1 ||| msb32) ++ encU32 val := by
      simp [saveSharedPtrU32, hreg, hbit]
    have hreg2 : InPtrState.init.registerSharedPointer (1 ||| msb32) val
        = InPtrState.mk [(1, val)] := by
      unfold InPtrState.registerSharedPointer
      rw [hstrip]
      rfl
    rw [hsave, List.append_assoc]
    unfold loadSharedPtrU32
    rw [loadU32_encU32 (1 ||| msb32) hlt (encU32 val ++ rest)]
    dsimp only
    rw [hbit, if_pos rfl, loadU32_encU32 val hval rest]
    dsimp only
    rw [hreg2]
  · rfl

/-- Claim C1, witness: the 32-bit scalar 1234 followed by a stray byte
decodes back to 1234 leaving exactly that byte. -/
theorem binary_roundtrip_witness :
    loadU32 (encU32 1234 ++ [9]) = .ok (1234, [9]) :=
  binary_roundtrip.2.1 1234 [9] (by decide)

/-! ### Claim C2 — output shared-pointer registration -/

/-- Claim C2: in an output session, `registerSharedPointer` maps null to 0;
first sight of a non-null address hands out the current next id (ids run
1, 2, … per session, which is the `OutInv` invariant, preserved here) with
bit 31 set and records the address; a repeat returns the recorded id with
bit 31 clear and leaves the map unchanged, so each address keeps exactly
one id for the session. -/
theorem registerSharedPointer_spec (s : OutPtrState) (hInv : OutInv s)
    (hBound : s.sharedPointerMap.length + 1 < msb32) :
    (s.registerSharedPointer 0 = (0, s)) ∧
    (∀ addr, addr ≠ 0 → lookupId s.sharedPointerMap addr = none →
      (s.registerSharedPointer addr).1 = s.currentPointerId ||| msb32 ∧
      Nat.testBit (s.registerSharedPointer addr).1 31 = true ∧
      lookupId (s.registerSharedPointer addr).2.sharedPointerMap addr
        = some s.currentPointerId ∧
      (s.registerSharedPointer addr).2.currentPointerId
        = s.currentPointerId + 1 ∧
      (∀ b, b ≠ addr →
        lookupId (s.registerSharedPointer addr).2.sharedPointerMap b
          = lookupId s.sharedPointerMap b) ∧
      OutInv (s.registerSharedPointer addr).2) ∧
    (∀ addr i, addr ≠ 0 → lookupId s.sharedPointerMap addr = some i →
      (s.registerSharedPointer addr).1 = i ∧
      Nat.testBit i 31 = false ∧
      1 ≤ i ∧ i < s.currentPointerId ∧
      (s.registerSharedPointer addr).2.sharedPointerMap
        = s.sharedPointerMap ∧
      (s.registerSharedPointer addr).2.currentPointerId
        = s.currentPointerId) := by
  obtain ⟨hcur, hids, hkeys⟩ := hInv
  have hmsb : msb32 = 2 ^ 31 := by norm_num [msb32]
  refine ⟨by simp [OutPtrState.registerSharedPointer], ?_, ?_⟩
  · intro addr haddr hnone
    have hstep : s.registerSharedPointer addr =
        (s.currentPointerId ||| msb32,
          { sharedPointerMap :=
              s.sharedPointerMap ++ [(addr, s.currentPointerId)]
            sharedPointerStorage := s.sharedPointerStorage ++ [addr]
            currentPointerId := (s.currentPointerId + 1) % u32Mod }) := by
      simp [OutPtrState.registerSharedPointer, haddr, hnone]
    have hmod : (s.currentPointerId + 1) % u32Mod = s.currentPointerId + 1 := by
      apply Nat.mod_eq_of_lt
      rw [hcur]
      unfold msb32 at hBound
      unfold u32Mod
      omega
    refine ⟨by rw [hstep], ?_, ?_, ?_, ?_, ?_⟩
    · rw [hstep]
      simp only
      rw [Nat.testBit_lor]
      have : Nat.testBit msb32 31 = true := by
        rw [hmsb]
        exact Nat.testBit_two_pow_self
      simp [this]
    · rw [hstep]
      exact lookupId_append_self _ _ _ hnone
    · rw [hstep]
      simpa using hmod
    · intro b hb
      rw [hstep]
      exact lookupId_append_ne _ _ _ _ hb
    · rw [hstep]
      have hmodL : (s.sharedPointerMap.length + 1 + 1) % u32Mod
          = s.sharedPointerMap.length + 1 + 1 := by
        rw [← hcur, hmod, hcur]
      refine ⟨?_, ?_, ?_⟩
      · simp only [hcur, List.length_append, List.length_cons,
          List.length_nil, hmodL]
      · simp only [List.map_append, List.map_cons, List.map_nil, hids,
          List.length_append, List.length_cons, List.length_nil]
        rw [List.range'_concat]
        simp only [hcur, Nat.one_mul, List.append_cancel_left_eq,
          List.cons.injEq, and_true]
        omega
      · simp only [List.map_append, List.map_cons, List.map_nil]
        rw [List.nodup_append]
        refine ⟨hkeys, List.nodup_singleton addr, ?_⟩
        intro a ha hamem
        simp only [List.mem_singleton] at hamem
        subst hamem
        exact not_mem_keys_of_lookupId_none _ _ hnone ha
  · intro addr i haddr hsome
    have hstep : s.registerSharedPointer addr =
        (i, { s with
          sharedPointerStorage := s.sharedPointerStorage ++ [addr] }) := by
      simp [OutPtrState.registerSharedPointer, haddr, hsome]
    have himem : (addr, i) ∈ s.sharedPointerMap := lookupId_mem _ _ _ hsome
    have hisnd : i ∈ s.sharedPointerMap.map Prod.snd :=
      List.mem_map_of_mem Prod.snd himem
    rw [hids, List.mem_range'_1] at hisnd
    have h31 : Nat.testBit i 31 = false := by
      apply Nat.testBit_eq_false_of_lt
      rw [← hmsb]
      unfold msb32 at hBound ⊢
      omega
    exact ⟨by rw [hstep], h31, hisnd.1, by rw [hcur]; omega,
      by rw [hstep], by rw [hstep]⟩

/-- Claim C2, witness: in a fresh session, registering address 5 returns
id 1 flagged with the high bit and advances the next id to 2. -/
theorem registerSharedPointer_spec_witness :
    (OutPtrState.init.registerSharedPointer 5).1 = 1 ||| msb32 ∧
    Nat.testBit (OutPtrState.init.registerSharedPointer 5).1 31 = true ∧
    (OutPtrState.init.registerSharedPointer 5).2.currentPointerId = 2 := by
  have h := registerSharedPointer_spec OutPtrState.init
    ⟨rfl, rfl, List.nodup_nil⟩ (by decide)
  have h2 := h.2.1 5 (by decide) rfl
  exact ⟨h2.1, h2.2.1, h2.2.2.2.1⟩

/-! ### Claim C3 — deferred queue -/

theorem runDefers_state (vs : List Nat) (s : DeferState) :
    (runDefers vs s).deferments = s.deferments ++ vs ∧
    (runDefers vs s).out = s.out := by
  induction vs generalizing s with
  | nil => simp [runDefers]
  | cons v vs ih =>
    have h := ih (s.defer v)
    simp only [runDefers, List.foldl_cons] at h ⊢
    simpa [DeferState.defer, List.append_assoc] using h

/-- Claim C3, counterexample: after deferring one value and flushing once,
the queue is not cleared and a second flush with no intervening defer
writes the deferred data again instead of executing nothing. -/
theorem serializeDeferments_second_flush_not_empty :
    ¬ (((DeferState.init.defer 7).serializeDeferments).deferments = [] ∧
      ((DeferState.init.defer 7).serializeDeferments).serializeDeferments.out
        = ((DeferState.init.defer 7).serializeDeferments).out) := by
  decide

/-- Claim C3, amended: `defer(value)` enqueues a closure capturing the
value, and `serializeDeferments` executes the queued closures in enqueue
order, but the queue is not cleared: a second flush with no intervening
defer executes every queued closure again. -/
theorem defer_serializeDeferments_spec (vs : List Nat) :
    (runDefers vs DeferState.init).deferments = vs ∧
    (runDefers vs DeferState.init).serializeDeferments.out
      = vs.flatMap encU32 ∧
    (runDefers vs DeferState.init).serializeDeferments.deferments = vs ∧
    (runDefers vs DeferState.init).serializeDeferments.serializeDeferments.out
      = vs.flatMap encU32 ++ vs.flatMap encU32 := by
  obtain ⟨hq, ho⟩ := runDefers_state vs DeferState.init
  simp [DeferState.serializeDeferments, DeferState.init, hq, ho] at hq ho ⊢

/-! ### Claim C7 — base-class dedup -/

theorem baseInv_step (s : BaseClassState) (i : BaseClassId)
    (h : BaseInv s) : BaseInv (s.processVirtualBaseClass i) := by
  intro id
  unfold BaseClassState.processVirtualBaseClass
  by_cases hmem : i ∈ s.baseClassSet
  · simpa [hmem] using h id
  · simp only [if_neg hmem]
    constructor
    · intro hid
      simp only [List.mem_append, List.mem_singleton] at hid
      rcases hid with hid | hid
      · have := (h id).1 hid
        have hne : id ≠ i := fun he => hmem (he ▸ hid)
        simp [List.count_append, List.count_singleton', hne, this]
      · subst hid
        have := (h id).2 hmem
        simp [List.count_append, List.count_singleton', this]
    · intro hid
      simp only [List.mem_append, List.mem_singleton, not_or] at hid
      have := (h id).2 hid.1
      simp [List.count_append, List.count_singleton', hid.2, this]

theorem baseInv_run (ids : List BaseClassId) (s : BaseClassState)
    (h : BaseInv s) : BaseInv (runVirtualBases ids s) := by
  induction ids generalizing s with
  | nil => simpa [runVirtualBases] using h
  | cons i ids ih =>
    simpa [runVirtualBases] using ih _ (baseInv_step s i h)

/-- Claim C7, counterexample: serializing the same object twice as a
non-virtual base-class view recurses into the base sub-object twice, so
the engine does not recurse at most once per (object identity, base type)
pair for every base-class view. -/
theorem base_class_not_deduplicated :
    ¬ (((BaseClassState.init.processBaseClass ⟨0, 0⟩).processBaseClass
        ⟨0, 0⟩).trace.count ⟨0, 0⟩ ≤ 1) := by
  decide

/-- Claim C7, amended: only virtual-base-class views are deduplicated —
over any sequence of `virtual_base_class` serializations in a session the
engine recurses into each (base type, address) pair at most once — while a
plain `base_class` view recurses unconditionally each time it is
serialized. -/
theorem virtual_base_class_dedup (ids : List BaseClassId) (id : BaseClassId) :
    (runVirtualBases ids BaseClassState.init).trace.count id ≤ 1 ∧
    (∀ s : BaseClassState, (s.processBaseClass id).trace = s.trace ++ [id]) := by
  constructor
  · have hInv : BaseInv BaseClassState.init := by
      intro i
      exact ⟨fun h => by simp [BaseClassState.init] at h, fun _ => rfl⟩
    have h := baseInv_run ids BaseClassState.init hInv id
    by_cases hmem : id ∈ (runVirtualBases ids BaseClassState.init).baseClassSet
    · exact h.1 hmem
    · simp [h.2 hmem]
  · intro s
    rfl

/-! ### Claim C8 — out-of-range bool byte -/

/-- Claim C8: `BinaryInputArchive::process_as(arithmetic)` at type `bool`
performs a raw `loadBinary` with no range validation, so a stream byte of
2 — neither 0 nor 1 — is copied into the bool object and the load reports
success, although the repository's own test (src/unittests/bool.hpp)
expects a `vide::Exception` with message `Invalid bool value ...` here. -/
theorem loadBool_accepts_out_of_range :
    loadBool [2] = Except.ok (2, []) ∧
    (∀ b rest, loadBool (b :: rest) = Except.ok (b, rest)) :=
  ⟨rfl, fun _ _ => rfl⟩

/-! ### Claim C4 — portable-binary read-size guard -/

theorem pbin_loadU32_encU32 (n : Nat) (hn : n < u32Mod) (rest : List Nat) :
    PBIn.loadU32 ⟨encU32 n ++ rest, 0⟩ = .ok (n, ⟨encU32 n ++ rest, 4⟩) := by
  simp only [PBIn.loadU32, PBIn.loadBinary, encU32, List.cons_append,
    List.nil_append, List.length_cons, List.drop_zero]
  rw [if_pos (by omega)]
  simp only [List.take, List.getD, List.get?, decU32]
  have : n % 256 + 256 * (n / 256 % 256) + 65536 * (n / 65536 % 256)
      + 16777216 * (n / 16777216 % 256) = n := by
    unfold u32Mod at hn
    omega
  simp [Option.getD, this]

/-- Claim C4: on portable-binary input a requested read whose declared
element count times the element size exceeds the bytes remaining in the
stream (the end recorded at construction minus the current position)
raises an error; a request within the remaining length passes the guard.
In particular a string load whose one-byte-element count exceeds the
remaining bytes fails with the validation error, before any allocation or
read of the payload is attempted. -/
theorem validate_read_size_guards (s : PBIn) (elemSize n : Nat) :
    (n * elemSize > s.maximumBinaryReadSize →
      s.validate_read_size elemSize n =
        .error ("Read size validation of " ++ toString (n * elemSize)
          ++ " bytes failed.")) ∧
    (n * elemSize ≤ s.maximumBinaryReadSize →
      s.validate_read_size elemSize n = .ok ()) ∧
    (∀ (count : Nat) (rest : List Nat), count < u32Mod → count > rest.length →
      PBIn.loadString ⟨encU32 count ++ rest, 0⟩ =
        .error ("Read size validation of " ++ toString count
          ++ " bytes failed.")) := by
  refine ⟨?_, ?_, ?_⟩
  · intro h
    simp [PBIn.validate_read_size, h]
  · intro h
    simp [PBIn.validate_read_size, Nat.not_lt.mpr h]
  · intro count rest hc hover
    simp only [PBIn.loadString, bind, Except.bind]
    rw [pbin_loadU32_encU32 count hc rest]
    simp [PBIn.validate_read_size, PBIn.maximumBinaryReadSize, encU32,
      Nat.mul_one, hover]

/-- Claim C4, witness: a stream declaring 1000 one-byte elements with no
payload bytes left is rejected by the guard. -/
theorem validate_read_size_guards_witness :
    PBIn.loadString ⟨encU32 1000 ++ [], 0⟩ =
      .error ("Read size validation of " ++ toString 1000
        ++ " bytes failed.") :=
  (validate_read_size_guards ⟨[], 0⟩ 1 0).2.2 1000 [] (by decide) (by decide)

/-! ### Claim C6 — input shared-pointer lookup -/

/-- Claim C6: during input, `getSharedPointer` returns null for id 0,
returns the previously registered instance for a registered id, and throws
for any other id. -/
theorem getSharedPointer_spec (s : InPtrState) (id : Nat) :
    (s.getSharedPointer 0 = .ok none) ∧
    (∀ v, id ≠ 0 → lookupId s.sharedPointerMap id = some v →
      s.getSharedPointer id = .ok (some v)) ∧
    (id ≠ 0 → lookupId s.sharedPointerMap id = none →
      s.getSharedPointer id =
        .error ("Error while trying to deserialize a smart pointer. Could not find id "
          ++ toString id)) := by
  refine ⟨by simp [InPtrState.getSharedPointer], ?_, ?_⟩
  · intro v hid hv
    simp [InPtrState.getSharedPointer, hid, hv]
  · intro hid hnone
    simp [InPtrState.getSharedPointer, hid, hnone]

/-- Claim C6, witness: in a session that registered instance 42 under id 1,
id 0 loads as null, id 1 yields the registered instance, and id 5 fails. -/
theorem getSharedPointer_spec_witness :
    InPtrState.getSharedPointer ⟨[(1, 42)]⟩ 1 = .ok (some 42) ∧
    InPtrState.getSharedPointer ⟨[(1, 42)]⟩ 5 =
      .error ("Error while trying to deserialize a smart pointer. Could not find id "
        ++ toString 5) :=
  ⟨(getSharedPointer_spec ⟨[(1, 42)]⟩ 1).2.1 42 (by decide) rfl,
   (getSharedPointer_spec ⟨[(1, 42)]⟩ 5).2.2 (by decide) rfl⟩

/-! ### Claim C5 — tree-archive named lookup -/

theorem searchFrom_found {V : Type} (nm : String) (l : List (String × V)) :
    ∀ (k i : Nat), searchFrom nm l k = some i →
      k ≤ i ∧ ∃ p, l.get? (i - k) = some p ∧ p.1 = nm := by
  induction l with
  | nil =>
    intro k i h
    simp [searchFrom] at h
  | cons p rest ih =>
    intro k i h
    simp only [searchFrom] at h
    by_cases hp : p.1 = nm
    · rw [if_pos hp] at h
      cases Option.some.inj h
      exact ⟨Nat.le_refl _, p, by simp, hp⟩
    · rw [if_neg hp] at h
      obtain ⟨hk, q, hq, hqn⟩ := ih (k + 1) i h
      refine ⟨by omega, q, ?_, hqn⟩
      have hik : i - k = (i - (k + 1)) + 1 := by omega
      rw [hik]
      simpa using hq

theorem searchFrom_none {V : Type} (nm : String) (l : List (String × V)) :
    ∀ k, searchFrom nm l k = none → ∀ p ∈ l, p.1 ≠ nm := by
  induction l with
  | nil => simp
  | cons p rest ih =>
    intro k h q hq
    simp only [searchFrom] at h
    by_cases hp : p.1 = nm
    · simp [hp] at h
    · rw [if_neg hp] at h
      rcases List.mem_cons.mp hq with hq | hq
      · rw [hq]; exact hp
      · exact ih (k + 1) h q hq

/-- Claim C5: loading a scalar from the tree archive calls `search()`
first — a pending name that matches the cursor position leaves the cursor
alone, a mismatching pending name repositions the cursor to the sibling of
the current level whose name matches (error when no sibling matches), and
with no pending name loading proceeds in document order; consequently
loading named fields c, a, b out of the object with members a, b, c yields
the same three values as loading a, b, c in order. -/
theorem json_named_load_spec {V : Type} :
    (∀ (s : JsonInState V) (nm : String), s.nextName = some nm →
      s.cursor.name = some nm → s.search = .ok ⟨s.cursor, none⟩) ∧
    (∀ (s : JsonInState V) (nm : String) (i : Nat), s.nextName = some nm →
      s.cursor.name ≠ some nm → searchFrom nm s.cursor.members 0 = some i →
      s.search = .ok ⟨⟨s.cursor.members, i⟩, none⟩ ∧
      ∃ p, s.cursor.members.get? i = some p ∧ p.1 = nm) ∧
    (∀ (s : JsonInState V) (nm : String), s.nextName = some nm →
      searchFrom nm s.cursor.members 0 = none →
      s.search = .error ("JSON Parsing failed - provided NVP (" ++ nm
        ++ ") not found")) ∧
    (∀ (c : JsonCursor V) (p : String × V), c.members.get? c.index = some p →
      JsonInState.loadValue ⟨c, none⟩
        = .ok (p.2, ⟨⟨c.members, c.index + 1⟩, none⟩)) ∧
    (∀ (na nb nc : String) (va vb vc : V), na ≠ nb → na ≠ nc → nb ≠ nc →
      (loadNames ⟨⟨[(na, va), (nb, vb), (nc, vc)], 0⟩, none⟩
          [nc, na, nb]).map Prod.fst = .ok [vc, va, vb] ∧
      (loadNames ⟨⟨[(na, va), (nb, vb), (nc, vc)], 0⟩, none⟩
          [na, nb, nc]).map Prod.fst = .ok [va, vb, vc]) := by
  refine ⟨?_, ?_, ?_, ?_, ?_⟩
  · intro s nm hn hname
    obtain ⟨c, nn⟩ := s
    simp only at hn hname
    subst hn
    simp [JsonInState.search, hname]
  · intro s nm i hn hmis hfound
    obtain ⟨c, nn⟩ := s
    simp only at hn hmis hfound
    subst hn
    obtain ⟨hk, p, hp, hpn⟩ := searchFrom_found nm c.members 0 i hfound
    constructor
    · simp only [JsonInState.search]
      cases hname : c.name with
      | none => simp [JsonCursor.search, hfound, bind, Except.bind]
      | some a =>
        have ha : ¬(a = nm) := fun he => hmis (by rw [hname, he])
        simp [ha, JsonCursor.search, hfound, bind, Except.bind]
    · exact ⟨p, by simpa using hp, hpn⟩
  · intro s nm hn hnone
    obtain ⟨c, nn⟩ := s
    simp only at hn hnone
    subst hn
    have hnomem := searchFrom_none nm c.members 0 hnone
    simp only [JsonInState.search]
    cases hname : c.name with
    | none => simp [JsonCursor.search, hnone, bind, Except.bind]
    | some a =>
      have ha : ¬(a = nm) := by
        intro he
        subst he
        unfold JsonCursor.name at hname
        cases hget : c.members.get? c.index with
        | none => rw [hget] at hname; simp at hname
        | some p =>
          rw [hget] at hname
          simp only [Option.some.injEq] at hname
          exact hnomem p (List.get?_mem hget) hname
      simp [ha, JsonCursor.search, hnone, bind, Except.bind]
  · intro c p hp
    have hp2 : c.members[c.index]? = some p := by
      rw [← List.get?_eq_getElem?]
      exact hp
    simp [JsonInState.loadValue, JsonInState.search, hp2, bind, Except.bind]
  · intro na nb nc va vb vc hab hac hbc
    have hba : ¬(nb = na) := fun h => hab h.symm
    have hca : ¬(nc = na) := fun h => hac h.symm
    have hcb : ¬(nc = nb) := fun h => hbc h.symm
    constructor <;>
      simp [loadNames, JsonInState.loadNamed, JsonInState.setNextName,
        JsonInState.loadValue, JsonInState.search, JsonCursor.name,
        JsonCursor.search, searchFrom, bind, Except.bind, Except.map,
        hab, hac, hbc, hba, hca, hcb]

/-- Claim C5, witness: loading names y, x from the object with members
x = 10, y = 20 yields 20 then 10. -/
theorem json_named_load_spec_witness :
    (JsonInState.loadValue ⟨⟨[("x", (10 : Nat)), ("y", 20)], 0⟩, none⟩
      = .ok (10, ⟨⟨[("x", 10), ("y", 20)], 1⟩, none⟩)) ∧
    ((loadNames ⟨⟨[("x", (10 : Nat)), ("y", 20), ("z", 30)], 0⟩, none⟩
        ["z", "x", "y"]).map Prod.fst = .ok [30, 10, 20]) :=
  ⟨(json_named_load_spec).2.2.2.1 ⟨[("x", 10), ("y", 20)], 0⟩ ("x", 10) rfl,
   ((json_named_load_spec).2.2.2.2 "x" "y" "z" 10 20 30 (by decide)
      (by decide) (by decide)).1⟩

/-! ### Claim C9 — shared-pointer copy retention -/

theorem registerSharedPointer_storage (s : OutPtrState) (addr : Nat) :
    (s.registerSharedPointer addr).2.sharedPointerStorage
        = s.sharedPointerStorage ∨
    (s.registerSharedPointer addr).2.sharedPointerStorage
        = s.sharedPointerStorage ++ [addr] := by
  unfold OutPtrState.registerSharedPointer
  by_cases h : addr = 0
  · left
    simp [h]
  · right
    simp only [if_neg h]
    split <;> simp

/-- Claim C9: every non-null address passed to `registerSharedPointer` is
recorded in `itsSharedPointerStorage` (standing for the copy of the shared
pointer the archive takes), the storage only grows across further
registrations — so every copy is held for the archive's whole lifetime —
and only `reset` empties it. -/
theorem sharedPointerStorage_retention :
    (∀ (s : OutPtrState) (addr : Nat), addr ≠ 0 →
      addr ∈ (s.registerSharedPointer addr).2.sharedPointerStorage) ∧
    (∀ (s : OutPtrState) (addr x : Nat), x ∈ s.sharedPointerStorage →
      x ∈ (s.registerSharedPointer addr).2.sharedPointerStorage) ∧
    (∀ (s : OutPtrState) (addrs : List Nat) (x : Nat),
      x ∈ s.sharedPointerStorage →
      x ∈ (runRegisters addrs s).sharedPointerStorage) ∧
    (∀ s : OutPtrState, s.reset.sharedPointerStorage = []) := by
  refine ⟨?_, ?_, ?_, fun _ => rfl⟩
  · intro s addr haddr
    unfold OutPtrState.registerSharedPointer
    simp only [if_neg haddr]
    split <;> simp
  · intro s addr x hx
    rcases registerSharedPointer_storage s addr with h | h <;> rw [h] <;>
      simp [hx]
  · intro s addrs x
    induction addrs generalizing s with
    | nil =>
      intro hx
      simpa [runRegisters] using hx
    | cons a as ih =>
      intro hx
      have hstep : x ∈ (s.registerSharedPointer a).2.sharedPointerStorage := by
        rcases registerSharedPointer_storage s a with h | h <;> rw [h] <;>
          simp [hx]
      simpa [runRegisters] using ih _ hstep

/-- Claim C9, witness: address 5 registered in a fresh session sits in the
storage, and is still there after two further registrations. -/
theorem sharedPointerStorage_retention_witness :
    5 ∈ (OutPtrState.init.registerSharedPointer 5).2.sharedPointerStorage ∧
    5 ∈ (runRegisters [6, 5]
      (OutPtrState.init.registerSharedPointer 5).2).sharedPointerStorage :=
  ⟨sharedPointerStorage_retention.1 OutPtrState.init 5 (by decide),
   sharedPointerStorage_retention.2.2.1 _ [6, 5] 5
     (sharedPointerStorage_retention.1 OutPtrState.init 5 (by decide))⟩

/-! ### Claim C10 — reserve budget -/

/-- Claim C10: `safe_to_reserve<T>(n)` grants `m <= n` elements with
`m * sizeof(T)` within the budget held before the call, deducts exactly
`m * sizeof(T)` from the budget, and hence the unsigned budget never
underflows; across any sequence of calls the budget never grows. -/
theorem safe_to_reserve_spec (elemSize budget n : Nat) (hes : 1 ≤ elemSize) :
    (safe_to_reserve elemSize budget n).1 ≤ n ∧
    (safe_to_reserve elemSize budget n).1 * elemSize ≤ budget ∧
    (safe_to_reserve elemSize budget n).2
      + (safe_to_reserve elemSize budget n).1 * elemSize = budget ∧
    (∀ (reqs : List Nat) (b : Nat), runReserves elemSize reqs b ≤ b) := by
  have hrun : ∀ (reqs : List Nat) (b : Nat), runReserves elemSize reqs b ≤ b := by
    intro reqs
    induction reqs with
    | nil => intro b; simp [runReserves]
    | cons r rs ih =>
      intro b
      have h1 : (safe_to_reserve elemSize b r).2 ≤ b := Nat.sub_le _ _
      calc runReserves elemSize (r :: rs) b
          = runReserves elemSize rs (safe_to_reserve elemSize b r).2 := rfl
        _ ≤ (safe_to_reserve elemSize b r).2 := ih _
        _ ≤ b := h1
  by_cases h : n * elemSize ≤ budget
  · refine ⟨?_, ?_, ?_, hrun⟩ <;> simp [safe_to_reserve, h, Nat.sub_add_cancel]
  · have hm : budget / elemSize * elemSize ≤ budget := Nat.div_mul_le_self _ _
    have hlt : budget / elemSize < n := by
      have hb : budget < n * elemSize := Nat.lt_of_not_le h
      exact (Nat.div_lt_iff_lt_mul (Nat.lt_of_lt_of_le Nat.zero_lt_one hes)).2 hb
    refine ⟨Nat.le_of_lt ?_, ?_, ?_, hrun⟩ <;>
      simp [safe_to_reserve, h, hm, hlt, Nat.sub_add_cancel]

/-- Claim C10, witness: a request of 100 four-byte elements against a
budget of 30 bytes grants 7 elements and leaves a budget of 2. -/
theorem safe_to_reserve_spec_witness :
    1 ≤ 4 ∧ (safe_to_reserve 4 30 100).1 ≤ 100 ∧
    (safe_to_reserve 4 30 100).1 * 4 ≤ 30 ∧
    (safe_to_reserve 4 30 100).2 + (safe_to_reserve 4 30 100).1 * 4 = 30 :=
  ⟨by decide,
   (safe_to_reserve_spec 4 30 100 (by decide)).1,
   (safe_to_reserve_spec 4 30 100 (by decide)).2.1,
   (safe_to_reserve_spec 4 30 100 (by decide)).2.2.1⟩

end Vide
